import Mathlib

/-!
Shallow embedding of the resolution / caching / query core of the
obsidian-linear-plugin repository (src/services/LinearService.ts and
src/processors/LinearProcessor.ts), together with theorems settling the
frozen claims about it.

Modelling conventions:
* Remote I/O (the Linear API client) is an explicit oracle `Env`; each
  fallible remote call is an `Except Unit _` value, `.error` standing for a
  rejected promise / thrown error.
* The service instance's mutable fields (`teamCache`,
  `workflowStatesCache`) are a `ServiceState` threaded explicitly.
* JavaScript string truthiness (`if (x)`) on an optional string is
  `x = some v` with `v ≠ ""`.
* `Date.now()` is an explicit `now : Int` argument (milliseconds).
* Due-date instants (`new Date(d).getTime()`) are carried directly as
  `Option Int` on issues.
* The unbounded `while (hasNextPage)` pagination loop takes explicit fuel;
  running out of fuel is an `.error`, which only ever weakens success
  statements (theorems supply enough fuel).
* `Array.prototype.sort` with a comparator is stable (ES2019), so it is
  embedded as `List.mergeSort` on the comparator's `≤`.
-/

namespace LinearPlugin

/-! ## Data model (LinearService.ts interfaces) -/

/-- The `team` sub-object of a workflow state / a team listing entry. -/
structure TeamRef where
  id : String
  name : String
deriving Repr, DecidableEq

/-- `WorkflowStateNode` from LinearService.ts (lines 5-13). -/
structure WorkflowStateNode where
  id : String
  name : String
  type : String
  team : Option TeamRef := none
deriving Repr, DecidableEq

/-- A team as returned by `client.teams()`. -/
structure Team where
  id : String
  name : String
deriving Repr, DecidableEq

/-- An issue; `dueDate` is the instant `new Date(issue.dueDate).getTime()`
(absent when the issue has no due date). -/
structure Issue where
  id : String
  dueDate : Option Int := none
deriving Repr, DecidableEq

/-- `DateRange` (LinearService.ts lines 25-28); `stop` embeds the source's
`end` field (a Lean keyword). -/
structure DateRange where
  start : String
  stop : String
deriving Repr, DecidableEq

/-- `DateFilter` (LinearService.ts lines 30-33). -/
structure DateFilter where
  before : Option String := none
  after : Option String := none
deriving Repr, DecidableEq

/-- `isDateFilter` (LinearService.ts lines 35-54); the typeof checks are
discharged statically by the embedding's types. -/
def isDateFilter (f : DateFilter) : Bool :=
  f.before.isSome || f.after.isSome

/-- Sort direction of `IssueOptions.sorting.direction`. -/
inductive SortDirection where
  | asc
  | desc
deriving Repr, DecidableEq

/-- `IssueOptions.sorting`; the `field` member is statically the literal
`'date'` in the source type, so only the direction is carried. -/
structure IssueSorting where
  direction : SortDirection
deriving Repr, DecidableEq

/-- `IssueOptions` (LinearService.ts lines 56-67). -/
structure IssueOptions where
  limit : Option Nat := none
  teamName : Option String := none
  status : Option String := none
  assigneeEmail : Option String := none
  dueDateFilter : Option DateFilter := none
  sorting : Option IssueSorting := none
  hideDescription : Bool := false

/-- One page of the raw `workflowStates` GraphQL response. -/
structure PageInfo where
  hasNextPage : Bool
  endCursor : String
deriving Repr, DecidableEq

/-- `response.data.workflowStates` for one page. -/
structure StatesPage where
  nodes : List WorkflowStateNode
  pageInfo : PageInfo
deriving Repr, DecidableEq

/-- The `dueDate` clause of the composed issue filter
(`{gte?, lt?}`, LinearService.ts lines 309-323). -/
structure DueDateClause where
  gte : Option String := none
  lt : Option String := none
deriving Repr, DecidableEq

/-- The composed issue filter: each field is one clause of the `filter`
object built in `getIssues` (`team.id.eq`, `state.id.eq`,
`assignee.email.eq`, `dueDate`). -/
structure ResolvedFilter where
  teamIdEq : Option String := none
  stateIdEq : Option String := none
  assigneeEmailEq : Option String := none
  dueDate : Option DueDateClause := none
deriving Repr, DecidableEq

/-- The workflow-states cache entry `{timestamp, states}`
(LinearService.ts lines 72-75). -/
structure CacheEntry where
  timestamp : Int
  states : List WorkflowStateNode
deriving Repr, DecidableEq

/-- The service instance's mutable fields: `teamCache` (a name→id map,
embedded as an association list whose lookup returns the most recent
binding, matching `Map.set`/`Map.get`) and `workflowStatesCache`. -/
structure ServiceState where
  teamCache : List (String × String) := []
  workflowStatesCache : Option CacheEntry := none
deriving Repr, DecidableEq

/-- The remote API oracle: `apiKeyConfigured` models `settings.apiKey`
being set; the three functions model `client.teams()`, the raw paginated
`workflowStates` request (arguments: the `first` page size and the optional
`after` cursor) and `client.issues({first, filter})`. -/
structure Env where
  apiKeyConfigured : Bool
  teamsResult : Except Unit (List Team)
  statesPage : Nat → Option String → Except Unit StatesPage
  issuesResult : Option Nat → Option ResolvedFilter → Except Unit (List Issue)

/-- `CACHE_TTL = 5 * 60 * 1000` (LinearService.ts line 76). -/
def CACHE_TTL : Int := 5 * 60 * 1000

/-- `String.prototype.toLowerCase()`: per-character lowercasing, written
over the character list so that concrete instances reduce. -/
def strToLower (s : String) : String :=
  ⟨s.data.map Char.toLower⟩

/-! ## Map operations (JS `Map` on the team cache) -/

/-- `Map.has`. -/
def mapHas (m : List (String × String)) (k : String) : Bool :=
  m.any (fun p => p.1 == k)

/-- `Map.get` (most recent binding wins, as with `Map.set` overwrite). -/
def mapGet (m : List (String × String)) (k : String) : Option String :=
  (m.find? (fun p => p.1 == k)).map (·.2)

/-- `Map.set`. -/
def mapSet (m : List (String × String)) (k v : String) : List (String × String) :=
  (k, v) :: m

/-! ## Team resolution (LinearService.ts lines 111-152) -/

/-- `getTeams` (lines 111-122): `ensureClient` plus `client.teams()`; any
failure is rethrown as a generic error. -/
def getTeams (env : Env) : Except Unit (List Team) :=
  if env.apiKeyConfigured then env.teamsResult else .error ()

/-- The `for (const team of teams)` search loop of `getTeamIdByName`
(lines 137-145): first team whose lowercased name equals the normalized
query name. -/
def findTeamInList (normalizedTeamName : String) : List Team → Option Team
  | [] => none
  | t :: rest =>
      if strToLower t.name == normalizedTeamName then some t
      else findTeamInList normalizedTeamName rest

/-- `getTeamIdByName` (lines 124-152). On a cache hit returns
`cachedId || null`; on a miss fetches the team listing, caches and returns
the matching team's id, returns `null` when absent, and — via the
`catch` on lines 148-151 — also returns `null` when the fetch itself
fails. -/
def getTeamIdByName (env : Env) (st : ServiceState) (teamName : String) :
    Option String × ServiceState :=
  let normalizedTeamName := strToLower teamName
  if mapHas st.teamCache normalizedTeamName then
    (match mapGet st.teamCache normalizedTeamName with
     | some cachedId => if cachedId == "" then none else some cachedId
     | none => none, st)
  else
    match getTeams env with
    | .error _ => (none, st)
    | .ok teams =>
        match findTeamInList normalizedTeamName teams with
        | some t =>
            (some t.id,
             { st with teamCache := mapSet st.teamCache normalizedTeamName t.id })
        | none => (none, st)

/-! ## Workflow-state cache and pagination (LinearService.ts lines 154-225) -/

/-- `isCacheValid` (lines 154-159). -/
def isCacheValid (now : Int) (st : ServiceState) : Bool :=
  match st.workflowStatesCache with
  | none => false
  | some c => decide (now - c.timestamp < CACHE_TTL)

/-- The `while (hasNextPage)` pagination loop of `getWorkflowStates`
(lines 171-206): requests pages of 100 items, threads each page's
`endCursor` into the next request (the first request carries no cursor),
concatenates `nodes` in response order, and fails if any page request
fails (a missing `workflowStates.nodes` in the response is folded into the
oracle's `.error`). -/
def fetchStatesLoop (env : Env) :
    Nat → Option String → List WorkflowStateNode → Except Unit (List WorkflowStateNode)
  | 0, _, _ => .error ()
  | fuel + 1, cursor, acc =>
      match env.statesPage 100 cursor with
      | .error _ => .error ()
      | .ok page =>
          let acc2 := acc ++ page.nodes
          if page.pageInfo.hasNextPage then
            fetchStatesLoop env fuel (some page.pageInfo.endCursor) acc2
          else
            .ok acc2

/-- `getWorkflowStates` (lines 161-225): serve the cache while valid;
otherwise run the paginated fetch and, only on full success, replace the
cache entry wholesale with a fresh timestamp. A failed fetch (including a
missing API key raised by `ensureClient`) is rethrown as an error and
leaves the state untouched. -/
def getWorkflowStates (env : Env) (now : Int) (fuel : Nat) (st : ServiceState) :
    Except Unit (List WorkflowStateNode) × ServiceState :=
  if isCacheValid now st then
    (match st.workflowStatesCache with
     | some c => .ok c.states
     | none => .error (), st)
  else if env.apiKeyConfigured then
    match fetchStatesLoop env fuel none [] with
    | .error _ => (.error (), st)
    | .ok allStates =>
        (.ok allStates, { st with workflowStatesCache := some ⟨now, allStates⟩ })
  else
    (.error (), st)

/-! ## Status resolution (LinearService.ts lines 227-267) -/

/-- A character kept by the `[^a-z0-9]` strip. -/
def isLowerAlnum (c : Char) : Bool :=
  ('a' ≤ c && c ≤ 'z') || ('0' ≤ c && c ≤ '9')

/-- `normalizeStateName` (lines 265-267): lowercase, then remove every
character outside `[a-z0-9]`. -/
def normalizeStateName (name : String) : String :=
  ((strToLower name).toList.filter isLowerAlnum).asString

/-- The team clause of the match condition on line 251:
`!teamId || !state.team || state.team.id === teamId`. -/
def stateTeamOk (teamId : Option String) (s : WorkflowStateNode) : Bool :=
  match teamId with
  | none => true
  | some tid =>
      match s.team with
      | none => true
      | some tm => tm.id == tid

/-- The `for (const state of states)` loop of `getStatusByName`
(lines 234-255): first state, in cache order, whose normalized name equals
the normalized query name and whose team clause holds. -/
def findMatchingState (searchName : String) (teamId : Option String) :
    List WorkflowStateNode → Option WorkflowStateNode
  | [] => none
  | s :: rest =>
      if normalizeStateName s.name == normalizeStateName searchName
          && stateTeamOk teamId s then
        some s
      else
        findMatchingState searchName teamId rest

/-- `getStatusByName` (lines 227-263): match over the (possibly freshly
fetched) workflow states; the `catch` on lines 259-262 turns a failed
state fetch into the same `null` as a miss. -/
def getStatusByName (env : Env) (now : Int) (fuel : Nat) (st : ServiceState)
    (statusName : String) (teamId : Option String) :
    Option WorkflowStateNode × ServiceState :=
  match getWorkflowStates env now fuel st with
  | (.error _, st1) => (none, st1)
  | (.ok states, st1) => (findMatchingState statusName teamId states, st1)

/-! ## Filter composition and the issue query (LinearService.ts lines 269-388) -/

/-- JS truthiness of an optional string. -/
def strTruthy (s : Option String) : Bool :=
  match s with
  | some v => v != ""
  | none => false

/-- The due-date block of `getIssues` (lines 306-324): guard with
`isDateFilter`, copy a truthy `after` into `gte` and a truthy `before`
into `lt`, and attach the clause only when it has at least one key. -/
def buildDueDateClause (df : Option DateFilter) : Option DueDateClause :=
  match df with
  | none => none
  | some f =>
      if isDateFilter f then
        let clause : DueDateClause :=
          { gte := if strTruthy f.after then f.after else none,
            lt := if strTruthy f.before then f.before else none }
        if clause.gte.isSome || clause.lt.isSome then some clause else none
      else
        none

/-- `Object.keys(filter).length > 0` is false iff no clause was added. -/
def filterIsEmpty (f : ResolvedFilter) : Bool :=
  f.teamIdEq.isNone && f.stateIdEq.isNone
    && f.assigneeEmailEq.isNone && f.dueDate.isNone

/-- The notice `Team "X" not found` (line 281). -/
def teamNotFoundMsg (t : String) : String :=
  "Team \"" ++ t ++ "\" not found"

/-- The notice `Status "Y" not found[ for the specified team]` (line 292). -/
def statusNotFoundMsg (s : String) (teamScoped : Bool) : String :=
  "Status \"" ++ s ++ "\" not found"
    ++ (if teamScoped then " for the specified team" else "")

/-- The notice `Failed to fetch Linear issues` (line 385). -/
def fetchIssuesFailedMsg : String :=
  "Failed to fetch Linear issues"

/-! ## Result sorting (LinearService.ts lines 340-350) -/

/-- The due-date comparator passed to `nodes.sort` (lines 340-350). -/
def dueCmp (dir : SortDirection) (a b : Issue) : Int :=
  match a.dueDate, b.dueDate with
  | none, none => 0
  | none, some _ => 1
  | some _, none => -1
  | some dateA, some dateB =>
      match dir with
      | .asc => dateA - dateB
      | .desc => dateB - dateA

/-- The comparator's non-strict order. -/
def dueLe (dir : SortDirection) (a b : Issue) : Bool :=
  decide (dueCmp dir a b ≤ 0)

/-- `nodes.sort(comparator)`: a stable sort (ES2019) on the comparator. -/
def sortIssuesByDueDate (dir : SortDirection) (l : List Issue) : List Issue :=
  l.mergeSort (dueLe dir)

/-! ## getIssues (LinearService.ts lines 269-388), split by source block -/

/-- The result of `getIssues`: the returned issue list plus the user-facing
notice raised on the failure paths (`new Notice(...)` followed by
`return []`, or the generic catch). -/
structure IssuesOutcome where
  issues : List Issue
  diagnostic : Option String
deriving Repr, DecidableEq

/-- Assignee clause, due-date clause, remote query and optional sort
(lines 301-388, after team and status resolved). -/
def fetchStep (env : Env) (opts : IssueOptions) (st : ServiceState)
    (teamId stateId : Option String) : IssuesOutcome × ServiceState :=
  let filter : ResolvedFilter :=
    { teamIdEq := teamId,
      stateIdEq := stateId,
      assigneeEmailEq := if strTruthy opts.assigneeEmail then opts.assigneeEmail else none,
      dueDate := buildDueDateClause opts.dueDateFilter }
  let filterArg : Option ResolvedFilter :=
    if filterIsEmpty filter then none else some filter
  match env.issuesResult opts.limit filterArg with
  | .error _ => (⟨[], some fetchIssuesFailedMsg⟩, st)
  | .ok nodes =>
      let sorted :=
        match opts.sorting with
        | some srt => sortIssuesByDueDate srt.direction nodes
        | none => nodes
      (⟨sorted, none⟩, st)

/-- The `if (options?.status)` block (lines 289-299). -/
def statusStep (env : Env) (now : Int) (fuel : Nat) (opts : IssueOptions)
    (st : ServiceState) (teamId : Option String) : IssuesOutcome × ServiceState :=
  match opts.status with
  | some sname =>
      if sname != "" then
        match getStatusByName env now fuel st sname teamId with
        | (none, st1) => (⟨[], some (statusNotFoundMsg sname teamId.isSome)⟩, st1)
        | (some state, st1) => fetchStep env opts st1 teamId (some state.id)
      else
        fetchStep env opts st teamId none
  | none => fetchStep env opts st teamId none

/-- The `if (options?.teamName)` block (lines 277-287). -/
def teamStep (env : Env) (now : Int) (fuel : Nat) (opts : IssueOptions)
    (st : ServiceState) : IssuesOutcome × ServiceState :=
  match opts.teamName with
  | some tname =>
      if tname != "" then
        match getTeamIdByName env st tname with
        | (none, st1) => (⟨[], some (teamNotFoundMsg tname)⟩, st1)
        | (some tid, st1) => statusStep env now fuel opts st1 (some tid)
      else
        statusStep env now fuel opts st none
  | none => statusStep env now fuel opts st none

/-- `getIssues` (lines 269-388). The surrounding `try/catch` means the
function never rejects: a missing API key (`ensureClient`) or a failed
remote query lands in the catch, which raises the generic notice and
returns `[]`. The post-fetch logging loop's `await issue.assignee` failures
are folded into the issue query's `.error`. -/
def getIssues (env : Env) (now : Int) (fuel : Nat) (opts : IssueOptions)
    (st : ServiceState) : IssuesOutcome × ServiceState :=
  if env.apiKeyConfigured then
    teamStep env now fuel opts st
  else
    (⟨[], some fetchIssuesFailedMsg⟩, st)

/-! ## LinearProcessor.ts: option parsing fragments -/

/-- `parseDueDateOptions` (LinearProcessor.ts lines 85-113), parameterized
by `resolveDate`, the embedding of `parseDateValue` (lines 115-153, whose
output depends on the current clock): a resolvable `dueAfter` token
contributes the window's `start` as `after`, a resolvable `dueBefore`
token contributes the window's `start` as `before`; an unresolvable token
contributes nothing, and a filter with neither bound is dropped. -/
def parseDueDateOptions (resolveDate : String → Option DateRange)
    (dueAfter dueBefore : Option String) : Option DateFilter :=
  let f0 : DateFilter := {}
  let f1 :=
    match dueAfter with
    | some v =>
        if v != "" then
          match resolveDate v with
          | some range => { f0 with after := some range.start }
          | none => f0
        else f0
    | none => f0
  let f2 :=
    match dueBefore with
    | some v =>
        if v != "" then
          match resolveDate v with
          | some range => { f1 with before := some range.start }
          | none => f1
        else f1
    | none => f1
  if isDateFilter f2 then some f2 else none

/-- The `sorting` branch of `parseOptions` (LinearProcessor.ts
lines 56-69): lowercase the value; `date` and `datedescending` give a
descending date sort, `dateascending` an ascending one, anything else no
sorting option. -/
def parseSortingOption (sorting : Option String) : Option IssueSorting :=
  match sorting with
  | some s =>
      if s != "" then
        let sortValue := strToLower s
        if sortValue == "date" || sortValue == "datedescending" then
          some ⟨.desc⟩
        else if sortValue == "dateascending" then
          some ⟨.asc⟩
        else
          none
      else
        none
  | none => none

/-! ## Theorems -/

/-- Spec-side status match predicate, following the spec's match rule
(§4.3): normalized names equal AND (`teamId` is absent OR the candidate
has no team OR the candidate's team ID equals `teamId`). -/
def statusMatchSpec (q : String) (teamId : Option String)
    (s : WorkflowStateNode) : Bool :=
  normalizeStateName s.name == normalizeStateName q
    && (teamId.isNone || s.team.isNone || s.team.map TeamRef.id == teamId)

theorem statusMatchSpec_eq_loopCond (q : String) (tid : Option String)
    (s : WorkflowStateNode) :
    statusMatchSpec q tid s
      = (normalizeStateName s.name == normalizeStateName q && stateTeamOk tid s) := by
  cases tid <;> cases ht : s.team <;> simp [statusMatchSpec, stateTeamOk, ht]

theorem findMatchingState_eq_find (q : String) (tid : Option String) :
    ∀ l : List WorkflowStateNode,
      findMatchingState q tid l = l.find? (statusMatchSpec q tid)
  | [] => rfl
  | s :: rest => by
      rw [findMatchingState, List.find?, statusMatchSpec_eq_loopCond]
      cases h : (normalizeStateName s.name == normalizeStateName q && stateTeamOk tid s)
      · simpa using findMatchingState_eq_find q tid rest
      · simp

/-- C4: status resolution returns the first workflow state, in the order
of the cached state sequence, satisfying the spec's match rule (normalized
names equal AND team constraint), and `none` exactly when no state does;
normalization (lowercase, strip everything outside `[a-z0-9]`) makes
"In Progress", "in-progress" and "INPROGRESS" equivalent. -/
theorem status_resolution_first_match (q : String) (tid : Option String)
    (l : List WorkflowStateNode) :
    findMatchingState q tid l = l.find? (statusMatchSpec q tid) ∧
    (findMatchingState q tid l = none ↔ ∀ s ∈ l, ¬ statusMatchSpec q tid s) ∧
    (∀ (env : Env) (now : Int) (fuel : Nat) (st st1 : ServiceState)
        (states : List WorkflowStateNode),
      getWorkflowStates env now fuel st = (.ok states, st1) →
      getStatusByName env now fuel st q tid
        = (states.find? (statusMatchSpec q tid), st1)) ∧
    normalizeStateName "In Progress" = normalizeStateName "in-progress" ∧
    normalizeStateName "In Progress" = normalizeStateName "INPROGRESS" ∧
    normalizeStateName "In Progress" = "inprogress" := by
  refine ⟨findMatchingState_eq_find q tid l, ?_, ?_, by decide, by decide, by decide⟩
  · rw [findMatchingState_eq_find q tid l]
    exact List.find?_eq_none
  · intro env now fuel st st1 states h
    rw [getStatusByName, h]
    simp [findMatchingState_eq_find]

/-- C10: option parsing accepts `date` (case-insensitively) as an alias
for a descending date sort in addition to `datedescending`;
`dateascending` gives ascending; anything else gives no sorting option. -/
theorem sorting_option_parsing (s : String) :
    (strToLower s = "date" → parseSortingOption (some s) = some ⟨.desc⟩) ∧
    (strToLower s = "datedescending" → parseSortingOption (some s) = some ⟨.desc⟩) ∧
    (strToLower s = "dateascending" → parseSortingOption (some s) = some ⟨.asc⟩) ∧
    (strToLower s ≠ "date" → strToLower s ≠ "datedescending" →
      strToLower s ≠ "dateascending" → parseSortingOption (some s) = none) ∧
    parseSortingOption none = none ∧
    parseSortingOption (some "Date") = some ⟨.desc⟩ ∧
    parseSortingOption (some "DATEASCENDING") = some ⟨.asc⟩ ∧
    parseSortingOption (some "duedate") = none := by
  by_cases hs : s = ""
  · subst hs
    refine ⟨?_, ?_, ?_, ?_, rfl, by decide, by decide, by decide⟩ <;>
      first
        | (intro h; exact absurd h (by decide))
        | (intro _ _ _; rfl)
  · have hne : (s != "") = true := by simpa using hs
    refine ⟨?_, ?_, ?_, ?_, rfl, by decide, by decide, by decide⟩ <;>
      intro h <;> simp [parseSortingOption, hne, h]
    intro h2 h3
    simp [h, h2, h3]

/-- C5: for every resolvable date token, a `dueAfter` token contributes
the resolved window's `start` as the filter's `gte` (inclusive lower)
bound and a `dueBefore` token contributes that same `start` as the
filter's `lt` (exclusive upper) bound — "before" is strictly before the
day's start, not before the following day's start. -/
theorem due_date_bounds (resolveDate : String → Option DateRange)
    (tok : String) (w : DateRange)
    (hres : resolveDate tok = some w) (htok : tok ≠ "") (hstart : w.start ≠ "") :
    buildDueDateClause (parseDueDateOptions resolveDate (some tok) none)
      = some { gte := some w.start, lt := none } ∧
    buildDueDateClause (parseDueDateOptions resolveDate none (some tok))
      = some { gte := none, lt := some w.start } := by
  have htok' : (tok != "") = true := by simpa using htok
  have hstart' : (w.start != "") = true := by simpa using hstart
  constructor <;>
    simp [parseDueDateOptions, buildDueDateClause, isDateFilter, hres, htok',
      strTruthy, hstart']

/-- Witness for `due_date_bounds` at a concrete resolver and token. -/
theorem due_date_bounds_witness :
    buildDueDateClause (parseDueDateOptions
        (fun _ => some ⟨"2025-03-10T00:00:00.000Z", "2025-03-11T00:00:00.000Z"⟩)
        (some "today") none)
      = some { gte := some "2025-03-10T00:00:00.000Z", lt := none } ∧
    buildDueDateClause (parseDueDateOptions
        (fun _ => some ⟨"2025-03-10T00:00:00.000Z", "2025-03-11T00:00:00.000Z"⟩)
        none (some "today"))
      = some { gte := none, lt := some "2025-03-10T00:00:00.000Z" } :=
  due_date_bounds
    (fun _ => some ⟨"2025-03-10T00:00:00.000Z", "2025-03-11T00:00:00.000Z"⟩)
    "today" ⟨"2025-03-10T00:00:00.000Z", "2025-03-11T00:00:00.000Z"⟩
    rfl (by decide) (by decide)

/-! ### Test oracles for counterexamples and witnesses -/

/-- A test oracle whose every remote call fails. -/
def envAllFail : Env :=
  { apiKeyConfigured := true
    teamsResult := .error ()
    statesPage := fun _ _ => .error ()
    issuesResult := fun _ _ => .error () }

/-- A test oracle whose team listing holds the teams Alpha and Beta. -/
def envTwoTeams : Env :=
  { envAllFail with
    teamsResult := .ok [⟨"id-a", "Alpha"⟩, ⟨"id-b", "Beta"⟩] }

/-- A test oracle with a single workflow-state page holding one state. -/
def envOneStatePage : Env :=
  { envAllFail with
    statesPage := fun _ _ => .ok ⟨[⟨"s1", "Backlog", "backlog", none⟩], ⟨false, ""⟩⟩ }

/-- C3 counterexample: resolving "Alpha" against a listing holding Alpha
and Beta leaves "beta" out of the index, and a subsequent lookup of
"Beta" goes back to the remote listing (here one that now fails), so it
does not succeed without a further fetch. -/
theorem team_cache_single_insert_cex :
    (getTeamIdByName envTwoTeams {} "Alpha").1 = some "id-a" ∧
    mapHas (getTeamIdByName envTwoTeams {} "Alpha").2.teamCache "beta" = false ∧
    (getTeamIdByName envAllFail (getTeamIdByName envTwoTeams {} "Alpha").2 "Beta").1
      = none := by
  decide

/-- C3 amended: on a team-name cache miss, team resolution fetches the
full team listing but inserts only the entry for the queried name (when
a team matches); the index is otherwise unchanged, so a lookup of any
other team name still misses the index and triggers a further fetch. -/
theorem team_cache_inserts_only_match (env : Env) (st : ServiceState) (name : String) :
    ((getTeamIdByName env st name).2.teamCache = st.teamCache ∨
      ∃ id, (getTeamIdByName env st name).1 = some id ∧
        (getTeamIdByName env st name).2.teamCache
          = (strToLower name, id) :: st.teamCache) ∧
    (∀ other : String, strToLower other ≠ strToLower name →
      mapHas st.teamCache (strToLower other) = false →
      mapHas (getTeamIdByName env st name).2.teamCache (strToLower other) = false) := by
  have hmain : (getTeamIdByName env st name).2.teamCache = st.teamCache ∨
      ∃ id, (getTeamIdByName env st name).1 = some id ∧
        (getTeamIdByName env st name).2.teamCache
          = (strToLower name, id) :: st.teamCache := by
    rw [getTeamIdByName]
    by_cases hhit : mapHas st.teamCache (strToLower name)
    · simp [hhit]
    · simp only [hhit, Bool.false_eq_true, if_false]
      cases hfetch : getTeams env with
      | error e => simp
      | ok teams =>
          cases hfind : findTeamInList (strToLower name) teams with
          | none => simp [hfind]
          | some t => exact Or.inr ⟨t.id, by simp [hfind, mapSet]⟩
  refine ⟨hmain, ?_⟩
  intro other hne hmiss
  rcases hmain with h | ⟨id, _, h⟩
  · rw [h]; exact hmiss
  · rw [h]
    simp [mapHas] at hmiss ⊢
    exact ⟨fun hcontra => hne hcontra.symm, hmiss⟩

/-- C2 counterexample: a failed team-listing fetch and a genuinely absent
team name produce the same `null` resolution result, and a failed
workflow-state fetch and a genuinely absent status name likewise — the
two outcomes are not distinct. -/
theorem resolution_fetch_failure_conflated_cex :
    (getTeamIdByName envAllFail {} "alpha").1 = none ∧
    (getTeamIdByName envTwoTeams {} "Ghost").1 = none ∧
    (getTeamIdByName envAllFail {} "alpha").1
      = (getTeamIdByName envTwoTeams {} "Ghost").1 ∧
    (getStatusByName envAllFail 0 1 {} "Done" none).1 = none ∧
    (getStatusByName envOneStatePage 0 1 {} "Done" none).1 = none ∧
    (getStatusByName envAllFail 0 1 {} "Done" none).1
      = (getStatusByName envOneStatePage 0 1 {} "Done" none).1 := by
  decide

/-- C2 amended: a failure of the underlying remote fetch is caught inside
team / status resolution and reported as the very same `null`
("not found") result that a genuinely absent name produces on a
successful fetch; no distinct error outcome reaches the caller. -/
theorem resolution_fetch_failure_reports_not_found
    (env : Env) (st : ServiceState) (name : String) (now : Int) (fuel : Nat)
    (teamId : Option String) :
    (mapHas st.teamCache (strToLower name) = false → getTeams env = .error () →
      getTeamIdByName env st name = (none, st)) ∧
    (mapHas st.teamCache (strToLower name) = false →
      ∀ teams, getTeams env = .ok teams →
        findTeamInList (strToLower name) teams = none →
        getTeamIdByName env st name = (none, st)) ∧
    ((getWorkflowStates env now fuel st).1 = .error () →
      (getStatusByName env now fuel st name teamId).1 = none) ∧
    (∀ states st1, getWorkflowStates env now fuel st = (.ok states, st1) →
      states.find? (statusMatchSpec name teamId) = none →
      (getStatusByName env now fuel st name teamId).1 = none) := by
  refine ⟨?_, ?_, ?_, ?_⟩
  · intro hmiss hfail
    simp [getTeamIdByName, hmiss, hfail]
  · intro hmiss teams hok hfind
    simp [getTeamIdByName, hmiss, hok, hfind]
  · intro herr
    rw [getStatusByName]
    rcases hg : getWorkflowStates env now fuel st with ⟨r, st1⟩
    rw [hg] at herr
    cases r with
    | error e => rfl
    | ok states => simp at herr
  · intro states st1 hok hfind
    rw [getStatusByName, hok]
    simpa [findMatchingState_eq_find] using hfind

theorem dueLe_total (dir : SortDirection) (a b : Issue) :
    dueLe dir a b || dueLe dir b a := by
  unfold dueLe dueCmp
  cases a.dueDate <;> cases b.dueDate <;> cases dir <;> simp <;> omega

theorem dueLe_trans (dir : SortDirection) (a b c : Issue) :
    dueLe dir a b → dueLe dir b c → dueLe dir a c := by
  unfold dueLe dueCmp
  cases a.dueDate <;> cases b.dueDate <;> cases c.dueDate <;> cases dir <;>
    simp <;> omega

/-- C6: the result sorter is a stable sort by due date: the output is a
permutation of the input, sorted under the comparator; the comparator
makes two absent due dates equal, puts an issue with a due date strictly
before one without for BOTH directions, and compares two present dates as
instants (earlier first ascending, later first descending); any
comparator-ordered pair — in particular any comparator-equal pair — keeps
its fetch order; including the spec's four-issue example both ways. -/
theorem sort_by_due_date_spec (dir : SortDirection) (l : List Issue) :
    (sortIssuesByDueDate dir l).Perm l ∧
    (sortIssuesByDueDate dir l).Pairwise (fun a b => dueCmp dir a b ≤ 0) ∧
    (∀ a b : Issue, a.dueDate = none → b.dueDate = none → dueCmp dir a b = 0) ∧
    (∀ a b : Issue, a.dueDate.isSome → b.dueDate = none → dueCmp dir a b < 0) ∧
    (∀ (a b : Issue) (da db : Int), a.dueDate = some da → b.dueDate = some db →
      dueCmp dir a b = match dir with | .asc => da - db | .desc => db - da) ∧
    (∀ a b : Issue, dueCmp dir a b ≤ 0 → List.Sublist [a, b] l →
      List.Sublist [a, b] (sortIssuesByDueDate dir l)) ∧
    sortIssuesByDueDate .asc
        [⟨"i1", none⟩, ⟨"i2", some 20250101⟩, ⟨"i3", none⟩, ⟨"i4", some 20241231⟩]
      = [⟨"i4", some 20241231⟩, ⟨"i2", some 20250101⟩, ⟨"i1", none⟩, ⟨"i3", none⟩] ∧
    sortIssuesByDueDate .desc
        [⟨"i1", none⟩, ⟨"i2", some 20250101⟩, ⟨"i3", none⟩, ⟨"i4", some 20241231⟩]
      = [⟨"i2", some 20250101⟩, ⟨"i4", some 20241231⟩, ⟨"i1", none⟩, ⟨"i3", none⟩] := by
  refine ⟨List.mergeSort_perm l (dueLe dir), ?_, ?_, ?_, ?_, ?_, ?_, ?_⟩
  · have h := @List.sorted_mergeSort Issue (dueLe dir)
      (fun a b c => dueLe_trans dir a b c) (fun a b => dueLe_total dir a b) l
    exact h.imp (fun hab => by simpa [dueLe] using hab)
  · intro a b ha hb; simp [dueCmp, ha, hb]
  · intro a b ha hb
    rcases Option.isSome_iff_exists.mp ha with ⟨da, hda⟩
    simp [dueCmp, hda, hb]
  · intro a b da db hda hdb; simp [dueCmp, hda, hdb]
  · intro a b hab hsub
    exact List.pair_sublist_mergeSort
      (fun x y z => dueLe_trans dir x y z) (fun x y => dueLe_total dir x y)
      (by simpa [dueLe] using hab) hsub
  · simp [sortIssuesByDueDate, List.mergeSort, List.merge, dueLe, dueCmp]
  · simp [sortIssuesByDueDate, List.mergeSort, List.merge, dueLe, dueCmp]

/-- C7: the workflow-state fetch is atomic with respect to the cache: an
errored fetch (at whatever page) returns the error and leaves the service
state — in particular the previous cache entry — unchanged; the state only
ever changes to the wholesale replacement `{timestamp := now, states :=
fetched}` when the paginated fetch completed, and a completed fetch on an
invalid cache does perform exactly that replacement. -/
theorem states_fetch_atomic (env : Env) (now : Int) (fuel : Nat) (st : ServiceState) :
    ((getWorkflowStates env now fuel st).1 = .error () →
      (getWorkflowStates env now fuel st).2 = st) ∧
    (isCacheValid now st = false → fetchStatesLoop env fuel none [] = .error () →
      getWorkflowStates env now fuel st = (.error (), st)) ∧
    (isCacheValid now st = false → env.apiKeyConfigured = true →
      ∀ s, fetchStatesLoop env fuel none [] = .ok s →
        getWorkflowStates env now fuel st
          = (.ok s, { st with workflowStatesCache := some ⟨now, s⟩ })) ∧
    ((getWorkflowStates env now fuel st).2 = st ∨
      ∃ s, fetchStatesLoop env fuel none [] = .ok s ∧
        (getWorkflowStates env now fuel st).1 = .ok s ∧
        (getWorkflowStates env now fuel st).2
          = { st with workflowStatesCache := some ⟨now, s⟩ }) := by
  rw [getWorkflowStates]
  by_cases hvalid : isCacheValid now st
  · cases hc : st.workflowStatesCache with
    | none => simp [isCacheValid, hc] at hvalid
    | some c => simp [hvalid, hc]
  · by_cases hkey : env.apiKeyConfigured
    · cases hloop : fetchStatesLoop env fuel none [] with
      | error e => simp [hvalid, hkey, hloop]
      | ok s => simp [hvalid, hkey, hloop]
    · simp [hvalid, hkey]

/-- C9: the workflow-state cache entry is read only while valid: a call at
an instant `t1` with `t1 - fetchedAt < TTL` returns the cached sequence
and leaves the state untouched, for EVERY oracle and fuel (so no fetch can
be observed); a successful fetch on an invalid cache stamps the entry with
the call's instant (so two calls within the TTL of a successful fetch
serve the identical sequence with no second fetch); and a call at an
expired instant performs the fetch anew and fully replaces the entry,
the new entry not depending on the old states (no merging). -/
theorem cache_ttl_read_only_while_valid
    (ts t1 now : Int) (s : List WorkflowStateNode) (st st' : ServiceState)
    (env : Env) (fuel : Nat) :
    (st'.workflowStatesCache = some ⟨ts, s⟩ → t1 - ts < CACHE_TTL →
      ∀ (env2 : Env) (fuel2 : Nat),
        getWorkflowStates env2 t1 fuel2 st' = (.ok s, st')) ∧
    (isCacheValid now st = false →
      (getWorkflowStates env now fuel st).1 = .ok s →
      (getWorkflowStates env now fuel st).2.workflowStatesCache = some ⟨now, s⟩) ∧
    (∀ c, st.workflowStatesCache = some c → t1 - c.timestamp ≥ CACHE_TTL →
      env.apiKeyConfigured = true →
      ∀ s2, fetchStatesLoop env fuel none [] = .ok s2 →
        getWorkflowStates env t1 fuel st
          = (.ok s2, { st with workflowStatesCache := some ⟨t1, s2⟩ })) := by
  refine ⟨?_, ?_, ?_⟩
  · intro hc hts env2 fuel2
    have hvalid : isCacheValid t1 st' = true := by
      simp [isCacheValid, hc, hts]
    rw [getWorkflowStates, if_pos hvalid, hc]
  · intro hvalid hok
    rw [getWorkflowStates, if_neg (by simp [hvalid])] at hok ⊢
    by_cases hkey : env.apiKeyConfigured
    · rw [if_pos hkey] at hok ⊢
      cases hloop : fetchStatesLoop env fuel none [] with
      | error e => rw [hloop] at hok; simp at hok
      | ok s2 =>
          rw [hloop] at hok
          simp at hok
          simp [hok]
    · rw [if_neg hkey] at hok; simp at hok
  · intro c hc hexp hkey s2 hloop
    have hvalid : isCacheValid t1 st = false := by
      simp [isCacheValid, hc]
      omega
    rw [getWorkflowStates, if_neg (by simp [hvalid]), if_pos hkey, hloop]

/-- `servesPages env cursor ps`: starting from request cursor `cursor`,
the oracle serves exactly the pages `ps` in order — each page is returned
for the request whose cursor is the previous page's `endCursor` (the
first request carries `cursor`), every page is requested with
`first = 100`, and `hasNextPage` is false exactly on the last page. -/
def servesPages (env : Env) : Option String → List StatesPage → Prop
  | _, [] => False
  | cursor, p :: rest =>
      env.statesPage 100 cursor = .ok p ∧
      (if p.pageInfo.hasNextPage then
        servesPages env (some p.pageInfo.endCursor) rest
      else rest = [])

theorem fetchStatesLoop_serves (env : Env) :
    ∀ (ps : List StatesPage) (cursor : Option String)
      (acc : List WorkflowStateNode) (fuel : Nat),
      servesPages env cursor ps → ps.length ≤ fuel →
      fetchStatesLoop env fuel cursor acc
        = .ok (acc ++ ps.flatMap (fun p => p.nodes))
  | [], _, _, _ => fun h _ => absurd h (by simp [servesPages])
  | p :: rest, cursor, acc, fuel => fun h hf => by
      obtain ⟨hfetch, hnext⟩ := h
      cases fuel with
      | zero => simp at hf
      | succ fuel' =>
          rw [fetchStatesLoop, hfetch]
          by_cases hN : p.pageInfo.hasNextPage
          · have hrest : servesPages env (some p.pageInfo.endCursor) rest := by
              simpa [hN] using hnext
            have hlen : rest.length ≤ fuel' := by
              simp only [List.length_cons] at hf
              omega
            have ih := fetchStatesLoop_serves env rest (some p.pageInfo.endCursor)
              (acc ++ p.nodes) fuel' hrest hlen
            simp [hN, ih]
          · have hrest : rest = [] := by simpa [hN] using hnext
            subst hrest
            simp [hN]

/-- C8: the pagination protocol requests pages of 100 items, threads each
page's `endCursor` into the next request (first request cursorless) and
stops exactly when `hasNextPage` is false: for an oracle serving pages
`ps` that way, the fetched sequence is the in-order concatenation of all
pages and its length is the sum of the page sizes. -/
theorem pagination_concatenation (env : Env) (ps : List StatesPage) (fuel : Nat)
    (h : servesPages env none ps) (hfuel : ps.length ≤ fuel) :
    fetchStatesLoop env fuel none [] = .ok (ps.flatMap (fun p => p.nodes)) ∧
    (ps.flatMap (fun p => p.nodes)).length
      = (ps.map (fun p => p.nodes.length)).sum := by
  constructor
  · simpa using fetchStatesLoop_serves env ps none [] fuel h hfuel
  · clear h hfuel
    induction ps with
    | nil => rfl
    | cons p rest ih => simp [List.flatMap_cons, ih]

/-- First page of the two-page pagination witness oracle. -/
def pageOne : StatesPage :=
  ⟨[⟨"s1", "Todo", "unstarted", none⟩, ⟨"s2", "Done", "completed", none⟩],
    ⟨true, "cur1"⟩⟩

/-- Second (last) page of the two-page pagination witness oracle. -/
def pageTwo : StatesPage :=
  ⟨[⟨"s3", "Backlog", "backlog", none⟩], ⟨false, ""⟩⟩

/-- A test oracle serving `pageOne` for the cursorless request and
`pageTwo` for the request carrying `pageOne`'s `endCursor`. -/
def envTwoPages : Env :=
  { apiKeyConfigured := true
    teamsResult := .error ()
    statesPage := fun _ cursor =>
      match cursor with
      | none => .ok pageOne
      | some c => if c == "cur1" then .ok pageTwo else .error ()
    issuesResult := fun _ _ => .error () }

/-- Witness for `pagination_concatenation` on the two-page oracle. -/
theorem pagination_concatenation_witness :
    fetchStatesLoop envTwoPages 2 none []
      = .ok ([pageOne, pageTwo].flatMap (fun p => p.nodes)) ∧
    ([pageOne, pageTwo].flatMap (fun p => p.nodes)).length
      = ([pageOne, pageTwo].map (fun p => p.nodes.length)).sum :=
  pagination_concatenation envTwoPages [pageOne, pageTwo] 2
    (by simp [servesPages, envTwoPages, pageOne, pageTwo]) (by decide)

theorem teamNotFoundMsg_head (t : String) :
    (teamNotFoundMsg t).data.head? = some 'T' := by
  rw [teamNotFoundMsg]; simp only [String.data_append]; rfl

theorem statusNotFoundMsg_head (s : String) (b : Bool) :
    (statusNotFoundMsg s b).data.head? = some 'S' := by
  rw [statusNotFoundMsg]; cases b <;> simp only [String.data_append] <;> rfl

theorem diagnostics_distinguishable (t s : String) (b : Bool) :
    teamNotFoundMsg t ≠ statusNotFoundMsg s b ∧
    teamNotFoundMsg t ≠ fetchIssuesFailedMsg ∧
    statusNotFoundMsg s b ≠ fetchIssuesFailedMsg := by
  refine ⟨fun h => ?_, fun h => ?_, fun h => ?_⟩
  · have h' := congrArg (fun x => x.data.head?) h
    simp only [teamNotFoundMsg_head, statusNotFoundMsg_head] at h'
    exact absurd h' (by decide)
  · have h' := congrArg (fun x => x.data.head?) h
    simp only [teamNotFoundMsg_head] at h'
    exact absurd h' (by decide)
  · have h' := congrArg (fun x => x.data.head?) h
    simp only [statusNotFoundMsg_head] at h'
    exact absurd h' (by decide)

theorem fetchStep_cases (env : Env) (opts : IssueOptions) (st : ServiceState)
    (tid sid : Option String) :
    ((fetchStep env opts st tid sid).1.diagnostic = none) ∨
    ((fetchStep env opts st tid sid).1 = ⟨[], some fetchIssuesFailedMsg⟩) := by
  simp only [fetchStep]
  split
  · exact Or.inr rfl
  · exact Or.inl rfl

theorem statusStep_cases (env : Env) (now : Int) (fuel : Nat)
    (opts : IssueOptions) (st : ServiceState) (tid : Option String) :
    ((statusStep env now fuel opts st tid).1.diagnostic = none) ∨
    (∃ s, opts.status = some s ∧
      (statusStep env now fuel opts st tid).1
        = ⟨[], some (statusNotFoundMsg s tid.isSome)⟩) ∨
    ((statusStep env now fuel opts st tid).1 = ⟨[], some fetchIssuesFailedMsg⟩) := by
  rw [statusStep]
  cases hs : opts.status with
  | none =>
      rcases fetchStep_cases env opts st tid none with h | h
      · exact Or.inl h
      · exact Or.inr (Or.inr h)
  | some sname =>
      simp only
      by_cases hn : (sname != "") = true
      · rw [if_pos hn]
        rcases hg : getStatusByName env now fuel st sname tid with ⟨r, st1⟩
        cases r with
        | none => exact Or.inr (Or.inl ⟨sname, rfl, rfl⟩)
        | some state =>
            simp only
            rcases fetchStep_cases env opts st1 tid (some state.id) with h | h
            · exact Or.inl h
            · exact Or.inr (Or.inr h)
      · rw [if_neg hn]
        rcases fetchStep_cases env opts st tid none with h | h
        · exact Or.inl h
        · exact Or.inr (Or.inr h)

theorem teamStep_cases (env : Env) (now : Int) (fuel : Nat)
    (opts : IssueOptions) (st : ServiceState) :
    ((teamStep env now fuel opts st).1.diagnostic = none) ∨
    (∃ t, opts.teamName = some t ∧
      (teamStep env now fuel opts st).1 = ⟨[], some (teamNotFoundMsg t)⟩) ∨
    (∃ s b, opts.status = some s ∧
      (teamStep env now fuel opts st).1 = ⟨[], some (statusNotFoundMsg s b)⟩) ∨
    ((teamStep env now fuel opts st).1 = ⟨[], some fetchIssuesFailedMsg⟩) := by
  rw [teamStep]
  cases ht : opts.teamName with
  | none =>
      rcases statusStep_cases env now fuel opts st none with h | ⟨s, hs, h⟩ | h
      · exact Or.inl h
      · exact Or.inr (Or.inr (Or.inl ⟨s, false, hs, h⟩))
      · exact Or.inr (Or.inr (Or.inr h))
  | some tname =>
      simp only
      by_cases hn : (tname != "") = true
      · rw [if_pos hn]
        rcases hg : getTeamIdByName env st tname with ⟨r, st1⟩
        cases r with
        | none => exact Or.inr (Or.inl ⟨tname, rfl, rfl⟩)
        | some tid =>
            rcases statusStep_cases env now fuel opts st1 (some tid) with h | ⟨s, hs, h⟩ | h
            · exact Or.inl h
            · exact Or.inr (Or.inr (Or.inl ⟨s, true, hs, h⟩))
            · exact Or.inr (Or.inr (Or.inr h))
      · rw [if_neg hn]
        rcases statusStep_cases env now fuel opts st none with h | ⟨s, hs, h⟩ | h
        · exact Or.inl h
        · exact Or.inr (Or.inr (Or.inl ⟨s, false, hs, h⟩))
        · exact Or.inr (Or.inr (Or.inr h))

/-- C1: `getIssues` never rejects (it is a total function into an
issue-list-plus-diagnostic outcome): every failure produces an empty
issue sequence together with a user-facing diagnostic drawn from the
failure taxonomy (team not found — naming the team input; status not
found — naming the status input and whether a team scope applied; generic
remote/API failure), a team-resolution failure and a status-resolution
failure each force exactly their respective message, and the three
messages are pairwise distinguishable. -/
theorem getIssues_degrades_with_diagnostic (env : Env) (now : Int) (fuel : Nat)
    (opts : IssueOptions) (st : ServiceState) :
    ((getIssues env now fuel opts st).1.diagnostic ≠ none →
      (getIssues env now fuel opts st).1.issues = []) ∧
    ((getIssues env now fuel opts st).1.diagnostic = none ∨
      (∃ t, opts.teamName = some t ∧
        (getIssues env now fuel opts st).1 = ⟨[], some (teamNotFoundMsg t)⟩) ∨
      (∃ s b, opts.status = some s ∧
        (getIssues env now fuel opts st).1 = ⟨[], some (statusNotFoundMsg s b)⟩) ∨
      ((getIssues env now fuel opts st).1 = ⟨[], some fetchIssuesFailedMsg⟩)) ∧
    (∀ t, env.apiKeyConfigured = true → opts.teamName = some t → t ≠ "" →
      (getTeamIdByName env st t).1 = none →
      (getIssues env now fuel opts st).1 = ⟨[], some (teamNotFoundMsg t)⟩) ∧
    (∀ t tid s, env.apiKeyConfigured = true → opts.teamName = some t → t ≠ "" →
      (getTeamIdByName env st t).1 = some tid → opts.status = some s → s ≠ "" →
      (getStatusByName env now fuel (getTeamIdByName env st t).2 s (some tid)).1
        = none →
      (getIssues env now fuel opts st).1 = ⟨[], some (statusNotFoundMsg s true)⟩) ∧
    (∀ t s b, teamNotFoundMsg t ≠ statusNotFoundMsg s b ∧
      teamNotFoundMsg t ≠ fetchIssuesFailedMsg ∧
      statusNotFoundMsg s b ≠ fetchIssuesFailedMsg) := by
  have hcases :
      ((getIssues env now fuel opts st).1.diagnostic = none) ∨
      (∃ t, opts.teamName = some t ∧
        (getIssues env now fuel opts st).1 = ⟨[], some (teamNotFoundMsg t)⟩) ∨
      (∃ s b, opts.status = some s ∧
        (getIssues env now fuel opts st).1 = ⟨[], some (statusNotFoundMsg s b)⟩) ∨
      ((getIssues env now fuel opts st).1 = ⟨[], some fetchIssuesFailedMsg⟩) := by
    rw [getIssues]
    by_cases hkey : env.apiKeyConfigured
    · rw [if_pos hkey]
      exact teamStep_cases env now fuel opts st
    · rw [if_neg hkey]
      exact Or.inr (Or.inr (Or.inr rfl))
  refine ⟨?_, hcases, ?_, ?_, fun t s b => diagnostics_distinguishable t s b⟩
  · intro hdiag
    rcases hcases with h | ⟨t, _, h⟩ | ⟨s, b, _, h⟩ | h
    · exact absurd h hdiag
    all_goals rw [h]
  · intro t hkey ht htne hres
    have htne' : (t != "") = true := by simpa using htne
    rw [getIssues, if_pos hkey, teamStep, ht]
    simp only
    rw [if_pos htne']
    rcases hg : getTeamIdByName env st t with ⟨r, st1⟩
    rw [hg] at hres
    simp only at hres
    subst hres
    rfl
  · intro t tid s hkey ht htne hteam hs hsne hstat
    have htne' : (t != "") = true := by simpa using htne
    have hsne' : (s != "") = true := by simpa using hsne
    rw [getIssues, if_pos hkey, teamStep, ht]
    simp only
    rw [if_pos htne']
    rcases hg : getTeamIdByName env st t with ⟨r, st1⟩
    rw [hg] at hteam hstat
    simp only at hteam hstat
    subst hteam
    simp only
    rw [statusStep, hs]
    simp only
    rw [if_pos hsne']
    rcases hg2 : getStatusByName env now fuel st1 s (some tid) with ⟨r2, st2⟩
    rw [hg2] at hstat
    simp only at hstat
    subst hstat
    rfl

end LinearPlugin
